import Mathlib

/-!
Shallow embedding of the post-execution changeset engine in
`crates/storage/provider/src/change.rs`: the `BundleState` aggregator
(block-range bookkeeping, receipts, revert journal), the `StateReverts`
write path (wiped-storage capture and two-pointer merge) and the
`StateChange` write path (plain storage and plain account tables).

Machine integers (`u64`, `usize`, `U256`, addresses, hashes) are modelled
as `Nat`. None of the verified operations exercises wrap-around:
`block_number - self.first_block` is guarded by
`self.first_block <= block_number` and `self.len() - (index + 1)` by
`index < self.len()`, so `Nat` subtraction agrees with the Rust values.
-/

/-- A log entry of a receipt; its contents are opaque to this module. -/
abbrev Log := Nat

/-- Modelled from the spec: a receipt (external `reth_primitives::Receipt`);
this module only ever reads its ordered list of logs. -/
structure Receipt where
  logs : List Log
deriving DecidableEq, Repr

/-- Modelled from the spec: the revm bundle state (external
`reth_revm_primitives::db::states::BundleState`), holding the present
per-address account values and the per-block revert journal — one entry
list per block of the aggregator's range, each entry an address paired
with the prior account value (`none` = did not exist). -/
structure RevmBundleState where
  state : List (Nat × Option Nat)
  reverts : List (List (Nat × Option Nat))
deriving DecidableEq, Repr

/-- Modelled from the spec: restore one prior account value over the
present value of the given address. -/
def setAccount (state : List (Nat × Option Nat)) (address : Nat) (prior : Option Nat) :
    List (Nat × Option Nat) :=
  match state with
  | [] => [(address, prior)]
  | e :: rest =>
    if e.fst = address then (address, prior) :: rest else e :: setAccount rest address prior

/-- Modelled from the spec: undo one block-transition by replaying the
block's revert-journal entries, restoring prior values over present
values. -/
def applyRevertBlock (state : List (Nat × Option Nat))
    (blockRevert : List (Nat × Option Nat)) : List (Nat × Option Nat) :=
  blockRevert.foldl (fun s e => setAccount s e.fst e.snd) state

/-- Modelled from the spec: undo the most recent recorded block-transition,
if any. -/
def RevmBundleState.revertLatest (b : RevmBundleState) : Option RevmBundleState :=
  match b.reverts.getLast? with
  | none => none
  | some blockRevert =>
    some { state := applyRevertBlock b.state blockRevert, reverts := b.reverts.dropLast }

/-- Modelled from the spec: undo the given number of block-transitions by
replaying the revert journal, most recent block first. -/
def RevmBundleState.revert (b : RevmBundleState) : Nat → RevmBundleState
  | 0 => b
  | n + 1 =>
    match b.revertLatest with
    | none => b
    | some b2 => b2.revert n

/-- Modelled from the spec: drop the leading revert history belonging to the
given number of detached blocks. -/
def RevmBundleState.detach_lower_part_reverts (b : RevmBundleState) (num : Nat) :
    RevmBundleState :=
  { b with reverts := b.reverts.drop num }

/-- `BundleState` (change.rs): bundle state of post-execution changes and
reverts, per-block receipts, and the first block of the range. -/
structure BundleState where
  bundle : RevmBundleState
  receipts : List (List Receipt)
  first_block : Nat
deriving DecidableEq, Repr

namespace BundleState

/-- The `Default` value of `BundleState`: empty bundle, no receipts, block 0. -/
def default : BundleState :=
  { bundle := { state := [], reverts := [] }, receipts := [], first_block := 0 }

/-- `BundleState::len`: number of blocks in the bundle state. -/
def len (self : BundleState) : Nat :=
  self.receipts.length

/-- `BundleState::last_block`: first block plus number of blocks. -/
def last_block (self : BundleState) : Nat :=
  self.first_block + self.len

/-- `BundleState::block_number_to_index`: transform a block number to the
index of the block inside the range. -/
def block_number_to_index (self : BundleState) (block_number : Nat) : Option Nat :=
  if self.first_block > block_number then none
  else
    let index := block_number - self.first_block
    if index ≥ self.receipts.length then none
    else some index

/-- `BundleState::logs`: all logs of the block, `none` on a range miss. -/
def logs (self : BundleState) (block_number : Nat) : Option (List Log) :=
  match self.block_number_to_index block_number with
  | none => none
  | some index => some ((self.receipts.getD index []).flatMap Receipt.logs)

/-- `BundleState::block_logs_bloom`; bloom derivation itself is external
(`reth_primitives::bloom::logs_bloom`), passed in as a parameter. -/
def block_logs_bloom (self : BundleState) (logsBloomFn : List Log → Nat)
    (block_number : Nat) : Option Nat :=
  match self.logs block_number with
  | none => none
  | some ls => some (logsBloomFn ls)

/-- `BundleState::receipts_root_slow`; root derivation itself is external
(`reth_primitives::proofs::calculate_receipt_root_ref`), passed in as a
parameter. -/
def receipts_root_slow (self : BundleState) (rootFn : List Receipt → Nat)
    (block_number : Nat) : Option Nat :=
  match self.block_number_to_index block_number with
  | none => none
  | some index => some (rootFn (self.receipts.getD index []))

/-- `BundleState::receipts_by_block`: the block's receipts, an empty slice
on a range miss. -/
def receipts_by_block (self : BundleState) (block_number : Nat) : List Receipt :=
  match self.block_number_to_index block_number with
  | none => []
  | some index => self.receipts.getD index []

/-- `BundleState::revert_to`: truncate the receipts to
`len - (index + 1)` entries and undo `len - new_len` revert-journal
transitions, exactly as the source computes the two counts. -/
def revert_to (self : BundleState) (block_number : Nat) : BundleState :=
  match self.block_number_to_index block_number with
  | none => self
  | some index =>
    let new_len := self.len - (index + 1)
    let rm_trx := self.len - new_len
    { self with
      receipts := self.receipts.take new_len
      bundle := self.bundle.revert rm_trx }

/-- `BundleState::detach_lower_part_at`; the Rust method mutates `self` and
returns the detached fragment, modelled here as the pair
(new value of `self`, returned value). -/
def detach_lower_part_at (self : BundleState) (block_number : Nat) :
    BundleState × Option BundleState :=
  if block_number ≥ self.last_block then (self, none)
  else if block_number < self.first_block then (self, some default)
  else
    let num_of_detached_block := (block_number - self.first_block) + 1
    let detached_bundle_state := self.revert_to block_number
    ({ self with
        receipts := self.receipts.drop num_of_detached_block
        bundle := self.bundle.detach_lower_part_reverts num_of_detached_block
        first_block := block_number + 1 },
      some detached_bundle_state)

end BundleState

/-- A three-block aggregator starting at block 100, with one revert-journal
entry list per block and an empty receipt list for block 101. -/
def exAgg : BundleState :=
  { bundle :=
      { state := [(1, some 10), (2, some 20)]
        reverts := [[(1, none)], [], [(2, some 5)]] }
    receipts := [[Receipt.mk [7]], [], [Receipt.mk [1], Receipt.mk [2]]]
    first_block := 100 }

/-- Closed form of `block_number_to_index`: `none` outside
`[first_block, first_block + len)`, otherwise the offset from
`first_block`. -/
theorem block_number_to_index_eq (bs : BundleState) (bn : Nat) :
    bs.block_number_to_index bn =
      if bn < bs.first_block ∨ bn ≥ bs.first_block + bs.receipts.length then none
      else some (bn - bs.first_block) := by
  simp only [BundleState.block_number_to_index]
  by_cases h1 : bs.first_block > bn
  · rw [if_pos h1, if_pos (by omega)]
  · rw [if_neg h1]
    by_cases h2 : bn - bs.first_block ≥ bs.receipts.length
    · rw [if_pos h2, if_pos (by omega)]
    · rw [if_neg h2, if_neg (by omega)]

/-- C5: `index_of` (`block_number_to_index`) returns `none` when the block
number is below `first_block` or at or above `first_block + len`, and
`some (block_number - first_block)` otherwise, without any mutation; on a
three-block aggregator starting at 100 it maps 100 to index 0, 102 to
index 2, and misses at 99 and 103. -/
theorem block_number_to_index_spec :
    (∀ (bs : BundleState) (bn : Nat),
      bs.block_number_to_index bn =
        if bn < bs.first_block ∨ bn ≥ bs.first_block + bs.receipts.length then none
        else some (bn - bs.first_block)) ∧
    exAgg.block_number_to_index 100 = some 0 ∧
    exAgg.block_number_to_index 102 = some 2 ∧
    exAgg.block_number_to_index 99 = none ∧
    exAgg.block_number_to_index 103 = none :=
  ⟨block_number_to_index_eq, rfl, rfl, rfl, rfl⟩

/-- C4: `detach_lower_part_at` returns `none` for a block number at or above
`last_block` and `some` of the empty default aggregator for a block number
below `first_block`; in both cases `self` is left unchanged. -/
theorem detach_lower_part_at_out_of_range (bs : BundleState) (bn : Nat) :
    (bn ≥ bs.first_block + bs.receipts.length →
      bs.detach_lower_part_at bn = (bs, none)) ∧
    (bn < bs.first_block →
      bs.detach_lower_part_at bn = (bs, some BundleState.default)) := by
  constructor
  · intro h
    simp only [BundleState.detach_lower_part_at, BundleState.last_block, BundleState.len]
    rw [if_pos h]
  · intro h
    simp only [BundleState.detach_lower_part_at, BundleState.last_block, BundleState.len]
    rw [if_neg (by omega), if_pos h]

/-- Witness for C4 on the concrete aggregator: block 103 is at `last_block`
and yields `none`; block 99 is below `first_block` and yields the empty
default aggregator, `self` unchanged both times. -/
theorem detach_lower_part_at_out_of_range_witness :
    exAgg.detach_lower_part_at 103 = (exAgg, none) ∧
    exAgg.detach_lower_part_at 99 = (exAgg, some BundleState.default) :=
  ⟨(detach_lower_part_at_out_of_range exAgg 103).1 (by decide),
   (detach_lower_part_at_out_of_range exAgg 99).2 (by decide)⟩

/-- C10: for a block number at or above `first_block + len`,
`revert_to` leaves the aggregator entirely unchanged — receipts, bundle
state and `first_block` included. -/
theorem revert_to_above_range (bs : BundleState) (bn : Nat)
    (h : bn ≥ bs.first_block + bs.receipts.length) :
    bs.revert_to bn = bs := by
  have hidx : bs.block_number_to_index bn = none := by
    rw [block_number_to_index_eq]
    exact if_pos (Or.inr h)
  simp [BundleState.revert_to, hidx]

/-- Witness for C10: reverting the concrete aggregator to block 103
(just above its range) changes nothing. -/
theorem revert_to_above_range_witness :
    exAgg.revert_to 103 = exAgg :=
  revert_to_above_range exAgg 103 (by decide)

/-- C9: every per-block read accessor treats a range miss as an empty
result — `logs`, `block_logs_bloom` and `receipts_root_slow` return `none`
and `receipts_by_block` returns the empty list for any out-of-range block
number, whatever the external bloom and root functions are — and the logs
of an in-range block whose receipt list is empty form the empty
sequence. -/
theorem read_accessors_miss_spec :
    (∀ (bs : BundleState) (bn : Nat) (bloomFn : List Log → Nat)
        (rootFn : List Receipt → Nat),
      (bn < bs.first_block ∨ bn ≥ bs.first_block + bs.receipts.length) →
        bs.logs bn = none ∧
        bs.block_logs_bloom bloomFn bn = none ∧
        bs.receipts_root_slow rootFn bn = none ∧
        bs.receipts_by_block bn = []) ∧
    (∀ (bs : BundleState) (bn i : Nat),
      bs.block_number_to_index bn = some i →
      bs.receipts.getD i [] = [] →
      bs.logs bn = some []) := by
  constructor
  · intro bs bn bloomFn rootFn h
    have hidx : bs.block_number_to_index bn = none := by
      rw [block_number_to_index_eq]
      exact if_pos h
    refine ⟨?_, ?_, ?_, ?_⟩
    · simp [BundleState.logs, hidx]
    · simp [BundleState.block_logs_bloom, BundleState.logs, hidx]
    · simp [BundleState.receipts_root_slow, hidx]
    · simp [BundleState.receipts_by_block, hidx]
  · intro bs bn i hidx hempty
    simp only [List.getD, List.get?_eq_getElem?] at hempty
    simp [BundleState.logs, hidx, List.getD, List.get?_eq_getElem?, hempty]

/-- Witness for C9 on the concrete aggregator: block 99 misses below the
range and block 103 misses above it, and in-range block 101 has an empty
receipt list, hence empty logs. -/
theorem read_accessors_miss_spec_witness :
    (exAgg.logs 99 = none ∧
      exAgg.block_logs_bloom List.length 99 = none ∧
      exAgg.receipts_root_slow List.length 99 = none ∧
      exAgg.receipts_by_block 99 = []) ∧
    exAgg.receipts_by_block 103 = [] ∧
    exAgg.logs 101 = some [] :=
  ⟨read_accessors_miss_spec.1 exAgg 99 List.length List.length (by decide),
   (read_accessors_miss_spec.1 exAgg 103 List.length List.length (by decide)).2.2.2,
   read_accessors_miss_spec.2 exAgg 101 1 (by decide) (by decide)⟩

namespace StateReverts

/-- The ordered two-pointer merge loop of `StateReverts::write_to_db`
(change.rs): merge the captured wiped-storage sequence with the revert
record's (slot, prior-value) sequence, both ascending by key; the smaller
key is emitted and its pointer advanced, and on equal keys the revert
record's value is emitted and both pointers advance. -/
def mergeReverts : List (Nat × Nat) → List (Nat × Nat) → List (Nat × Nat)
  | [], [] => []
  | w :: wiped, [] => w :: mergeReverts wiped []
  | [], r :: reverts => r :: mergeReverts [] reverts
  | w :: wiped, r :: reverts =>
    if w.fst < r.fst then w :: mergeReverts wiped (r :: reverts)
    else if r.fst < w.fst then r :: mergeReverts (w :: wiped) reverts
    else r :: mergeReverts wiped reverts
termination_by ws rs => ws.length + rs.length

end StateReverts

/-- Keys of an association list are strictly ascending (hence unique). -/
def KeysAsc (l : List (Nat × Nat)) : Prop :=
  l.Pairwise (fun p q => p.fst < q.fst)

instance (l : List (Nat × Nat)) : Decidable (KeysAsc l) := by
  unfold KeysAsc
  infer_instance

/-- `lookup` at the head of an association list, stated for an arbitrary
pair with a propositional `if`. -/
theorem lookup_cons_pair (k : Nat) (p : Nat × Nat) (l : List (Nat × Nat)) :
    (p :: l).lookup k = if k = p.fst then some p.snd else l.lookup k := by
  obtain ⟨a, b⟩ := p
  rw [List.lookup_cons]
  by_cases hk : k = a
  · simp [hk]
  · have hb : (k == a) = false := beq_eq_false_iff_ne.mpr hk
    simp [hb, hk]

/-- `lookup` misses in an association list whose keys all differ from the
looked-up key. -/
theorem lookup_eq_none_of_forall_ne {k : Nat} :
    ∀ {l : List (Nat × Nat)}, (∀ p ∈ l, k ≠ p.fst) → l.lookup k = none := by
  intro l
  induction l with
  | nil => intro _; rfl
  | cons x xs ih =>
    intro h
    rw [lookup_cons_pair, if_neg (h x (List.mem_cons_self _ _))]
    exact ih fun p hp => h p (List.mem_cons_of_mem _ hp)

/-- `lookup` misses in a key-ascending association list when the key is
strictly below the head key. -/
theorem lookup_eq_none_of_lt_head {k : Nat} {p : Nat × Nat} {l : List (Nat × Nat)}
    (h : KeysAsc (p :: l)) (hk : k < p.fst) :
    (p :: l).lookup k = none := by
  apply lookup_eq_none_of_forall_ne
  intro q hq
  rcases List.mem_cons.mp hq with rfl | hq
  · omega
  · have := (List.pairwise_cons.mp h).1 q hq
    omega

/-- Every element of the two-pointer merge comes from one of the inputs. -/
theorem mem_mergeReverts (W R : List (Nat × Nat)) (p : Nat × Nat)
    (hp : p ∈ StateReverts.mergeReverts W R) : p ∈ W ∨ p ∈ R := by
  induction W, R using StateReverts.mergeReverts.induct with
  | case1 => rw [StateReverts.mergeReverts] at hp; simp at hp
  | case2 w wiped ih =>
    rw [StateReverts.mergeReverts] at hp
    rcases List.mem_cons.mp hp with h | h
    · exact Or.inl (h ▸ List.mem_cons_self w wiped)
    · rcases ih h with h2 | h2
      · exact Or.inl (List.mem_cons_of_mem w h2)
      · exact Or.inr h2
  | case3 r reverts ih =>
    rw [StateReverts.mergeReverts] at hp
    rcases List.mem_cons.mp hp with h | h
    · exact Or.inr (h ▸ List.mem_cons_self r reverts)
    · rcases ih h with h2 | h2
      · exact Or.inl h2
      · exact Or.inr (List.mem_cons_of_mem r h2)
  | case4 w wiped r reverts hlt ih =>
    rw [StateReverts.mergeReverts, if_pos hlt] at hp
    rcases List.mem_cons.mp hp with h | h
    · exact Or.inl (h ▸ List.mem_cons_self w wiped)
    · rcases ih h with h2 | h2
      · exact Or.inl (List.mem_cons_of_mem w h2)
      · exact Or.inr h2
  | case5 w wiped r reverts hnlt hlt ih =>
    rw [StateReverts.mergeReverts, if_neg hnlt, if_pos hlt] at hp
    rcases List.mem_cons.mp hp with h | h
    · exact Or.inr (h ▸ List.mem_cons_self r reverts)
    · rcases ih h with h2 | h2
      · exact Or.inl h2
      · exact Or.inr (List.mem_cons_of_mem r h2)
  | case6 w wiped r reverts hnlt hnlt2 ih =>
    rw [StateReverts.mergeReverts, if_neg hnlt, if_neg hnlt2] at hp
    rcases List.mem_cons.mp hp with h | h
    · exact Or.inr (h ▸ List.mem_cons_self r reverts)
    · rcases ih h with h2 | h2
      · exact Or.inl (List.mem_cons_of_mem w h2)
      · exact Or.inr (List.mem_cons_of_mem r h2)

/-- The two-pointer merge of two key-ascending inputs is key-ascending. -/
theorem keysAsc_mergeReverts (W R : List (Nat × Nat))
    (hW : KeysAsc W) (hR : KeysAsc R) :
    KeysAsc (StateReverts.mergeReverts W R) := by
  unfold KeysAsc at *
  induction W, R using StateReverts.mergeReverts.induct with
  | case1 => rw [StateReverts.mergeReverts]; exact List.Pairwise.nil
  | case2 w wiped ih =>
    rw [StateReverts.mergeReverts]
    rw [List.pairwise_cons] at hW ⊢
    refine ⟨?_, ih hW.2 hR⟩
    intro b hb
    rcases mem_mergeReverts _ _ _ hb with h | h
    · exact hW.1 b h
    · simp at h
  | case3 r reverts ih =>
    rw [StateReverts.mergeReverts]
    rw [List.pairwise_cons] at hR ⊢
    refine ⟨?_, ih hW hR.2⟩
    intro b hb
    rcases mem_mergeReverts _ _ _ hb with h | h
    · simp at h
    · exact hR.1 b h
  | case4 w wiped r reverts hlt ih =>
    rw [StateReverts.mergeReverts, if_pos hlt]
    rw [List.pairwise_cons] at hW ⊢
    refine ⟨?_, ih hW.2 hR⟩
    intro b hb
    rcases mem_mergeReverts _ _ _ hb with h | h
    · exact hW.1 b h
    · rcases List.mem_cons.mp h with rfl | h2
      · exact hlt
      · have := (List.pairwise_cons.mp hR).1 b h2
        omega
  | case5 w wiped r reverts hnlt hlt ih =>
    rw [StateReverts.mergeReverts, if_neg hnlt, if_pos hlt]
    rw [List.pairwise_cons] at hR ⊢
    refine ⟨?_, ih hW hR.2⟩
    intro b hb
    rcases mem_mergeReverts _ _ _ hb with h | h
    · rcases List.mem_cons.mp h with rfl | h2
      · exact hlt
      · have := (List.pairwise_cons.mp hW).1 b h2
        omega
    · exact hR.1 b h
  | case6 w wiped r reverts hnlt hnlt2 ih =>
    rw [StateReverts.mergeReverts, if_neg hnlt, if_neg hnlt2]
    rw [List.pairwise_cons] at hW hR ⊢
    refine ⟨?_, ih hW.2 hR.2⟩
    intro b hb
    rcases mem_mergeReverts _ _ _ hb with h | h
    · have := hW.1 b h
      omega
    · exact hR.1 b h

/-- Lookup in the two-pointer merge: the revert record's value wins over
the wiped-storage value on shared keys, and a key of a single input keeps
that input's value. -/
theorem lookup_mergeReverts (W R : List (Nat × Nat))
    (hW : KeysAsc W) (hR : KeysAsc R) (k : Nat) :
    (StateReverts.mergeReverts W R).lookup k = (R.lookup k).or (W.lookup k) := by
  induction W, R using StateReverts.mergeReverts.induct with
  | case1 => rw [StateReverts.mergeReverts]; rfl
  | case2 w wiped ih =>
    rw [StateReverts.mergeReverts]
    have hrec := ih hW.of_cons hR
    rw [List.lookup_nil, Option.none_or] at hrec ⊢
    rw [lookup_cons_pair]
    conv_rhs => rw [lookup_cons_pair]
    by_cases hk : k = w.fst
    · rw [if_pos hk, if_pos hk]
    · rw [if_neg hk, if_neg hk, hrec]
  | case3 r reverts ih =>
    rw [StateReverts.mergeReverts, List.lookup_nil, Option.or_none]
    have hrec := ih hW hR.of_cons
    rw [List.lookup_nil, Option.or_none] at hrec
    rw [lookup_cons_pair]
    conv_rhs => rw [lookup_cons_pair]
    by_cases hk : k = r.fst
    · rw [if_pos hk, if_pos hk]
    · rw [if_neg hk, if_neg hk, hrec]
  | case4 w wiped r reverts hlt ih =>
    rw [StateReverts.mergeReverts, if_pos hlt]
    have hrec := ih hW.of_cons hR
    rw [lookup_cons_pair]
    by_cases hk : k = w.fst
    · rw [if_pos hk]
      have hmiss : (r :: reverts).lookup k = none :=
        lookup_eq_none_of_lt_head hR (by omega)
      rw [hmiss, Option.none_or, lookup_cons_pair, if_pos hk]
    · rw [if_neg hk, hrec]
      conv_rhs => rw [lookup_cons_pair k w wiped]
      rw [if_neg hk]
  | case5 w wiped r reverts hnlt hlt ih =>
    rw [StateReverts.mergeReverts, if_neg hnlt, if_pos hlt]
    have hrec := ih hW hR.of_cons
    rw [lookup_cons_pair]
    conv_rhs => rw [lookup_cons_pair]
    by_cases hk : k = r.fst
    · rw [if_pos hk, if_pos hk]
      rfl
    · rw [if_neg hk, if_neg hk, hrec]
  | case6 w wiped r reverts hnlt hnlt2 ih =>
    rw [StateReverts.mergeReverts, if_neg hnlt, if_neg hnlt2]
    have hrec := ih hW.of_cons hR.of_cons
    have hkey : w.fst = r.fst := by omega
    rw [lookup_cons_pair]
    conv_rhs => rw [lookup_cons_pair, lookup_cons_pair]
    by_cases hk : k = r.fst
    · rw [if_pos hk, if_pos hk]
      rfl
    · rw [if_neg hk, if_neg hk, if_neg (show ¬k = w.fst by omega), hrec]

/-- C2: the ordered two-pointer merge of `StateReverts::write_to_db`, on a
wiped-storage sequence `W` and a revert sequence `R` that are each
ascending with unique keys, emits a sequence that is strictly ascending
and unique in key; a key present in only one input keeps that input's
value, and a key present in both inputs gets the revert record's value
(`Option.or` tries `R`'s association first and falls back to `W`'s). -/
theorem mergeReverts_spec (W R : List (Nat × Nat)) (hW : KeysAsc W) (hR : KeysAsc R) :
    KeysAsc (StateReverts.mergeReverts W R) ∧
    ((StateReverts.mergeReverts W R).map Prod.fst).Nodup ∧
    ∀ k : Nat, (StateReverts.mergeReverts W R).lookup k =
      (R.lookup k).or (W.lookup k) := by
  have hasc := keysAsc_mergeReverts W R hW hR
  refine ⟨hasc, ?_, lookup_mergeReverts W R hW hR⟩
  have hne : (StateReverts.mergeReverts W R).Pairwise
      (fun p q : Nat × Nat => p.fst ≠ q.fst) :=
    hasc.imp fun h => Nat.ne_of_lt h
  exact List.pairwise_map.mpr hne

/-- Witness for C2 at W = [(1, 10), (3, 30)] and R = [(2, 5), (3, 7)]: the
merge is ascending with unique keys, key 1 keeps W's value 10, key 2 keeps
R's value 5, and the shared key 3 gets R's value 7. -/
theorem mergeReverts_spec_witness :
    KeysAsc (StateReverts.mergeReverts [(1, 10), (3, 30)] [(2, 5), (3, 7)]) ∧
    (StateReverts.mergeReverts [(1, 10), (3, 30)] [(2, 5), (3, 7)]).lookup 1 = some 10 ∧
    (StateReverts.mergeReverts [(1, 10), (3, 30)] [(2, 5), (3, 7)]).lookup 2 = some 5 ∧
    (StateReverts.mergeReverts [(1, 10), (3, 30)] [(2, 5), (3, 7)]).lookup 3 = some 7 := by
  have h := mergeReverts_spec [(1, 10), (3, 30)] [(2, 5), (3, 7)] (by decide) (by decide)
  refine ⟨h.1, ?_, ?_, ?_⟩
  · rw [h.2.2 1]; rfl
  · rw [h.2.2 2]; rfl
  · rw [h.2.2 3]; rfl

/-- Result of writing one (block, address) storage-revert record in
`StateReverts::write_to_db`: the change-set entries emitted for that
(block, address), the address's remaining persisted plain storage, and
whether a delete was issued against the plain storage table. -/
structure StorageRevertResult where
  emitted : List (Nat × Nat)
  plainStorage : List (Nat × Nat)
  deleteIssued : Bool
deriving DecidableEq, Repr

/-- Body of the inner loop of `StateReverts::write_to_db` (change.rs) for
one (block, address): when `wipe_storage` is set and the address has
persisted plain storage, the ordered duplicate scan (`seek_exact` then
repeated `next_dup_val`) captures every (slot, value) pair in ascending
order into `wiped_storage` and `delete_current_duplicates` removes them
all; the emitted change-set is the revert record's pairs when
`wiped_storage` is empty and the two-pointer merge otherwise. -/
def StateReverts.writeStorageRevert (plainStorage : List (Nat × Nat))
    (wipe_storage : Bool) (storage : List (Nat × Nat)) : StorageRevertResult :=
  match wipe_storage, plainStorage with
  | true, entry :: rest =>
    let wiped_storage := entry :: rest
    { emitted := StateReverts.mergeReverts wiped_storage storage
      plainStorage := []
      deleteIssued := true }
  | _, _ =>
    { emitted := storage, plainStorage := plainStorage, deleteIssued := false }

/-- C6: for a wiped (block, address) revert record, the address's persisted
plain storage is read in ascending order, captured whole, and deleted —
afterwards the plain storage is empty, a delete was issued, and the
emitted change-set is the two-pointer merge of the captured pairs with the
revert record's pairs (each captured slot survives unless the revert
record overrides it); when the address has no persisted storage, nothing
is captured or deleted and the revert record's pairs are emitted
directly. -/
theorem writeStorageRevert_wiped (plain storage : List (Nat × Nat))
    (hp : KeysAsc plain) (hs : KeysAsc storage) :
    (plain = [] →
      (StateReverts.writeStorageRevert plain true storage).deleteIssued = false ∧
      (StateReverts.writeStorageRevert plain true storage).plainStorage = plain ∧
      (StateReverts.writeStorageRevert plain true storage).emitted = storage) ∧
    (plain ≠ [] →
      (StateReverts.writeStorageRevert plain true storage).deleteIssued = true ∧
      (StateReverts.writeStorageRevert plain true storage).plainStorage = [] ∧
      (StateReverts.writeStorageRevert plain true storage).emitted =
        StateReverts.mergeReverts plain storage ∧
      ∀ k : Nat,
        (StateReverts.writeStorageRevert plain true storage).emitted.lookup k =
          (storage.lookup k).or (plain.lookup k)) := by
  constructor
  · rintro rfl
    exact ⟨rfl, rfl, rfl⟩
  · intro hne
    cases plain with
    | nil => exact absurd rfl hne
    | cons e rest =>
      exact ⟨rfl, rfl, rfl, fun k => lookup_mergeReverts (e :: rest) storage hp hs k⟩

/-- Witness for C6: with persisted storage [(1, 4), (2, 6)] and revert
record [(2, 9)], the wipe captures and deletes both persisted slots, and
the change-set keeps slot 1's captured value while slot 2 takes the revert
record's value; with no persisted storage the revert pairs pass through
with no delete. -/
theorem writeStorageRevert_wiped_witness :
    (StateReverts.writeStorageRevert [] true [(2, 9)]).deleteIssued = false ∧
    (StateReverts.writeStorageRevert [] true [(2, 9)]).emitted = [(2, 9)] ∧
    (StateReverts.writeStorageRevert [(1, 4), (2, 6)] true [(2, 9)]).deleteIssued = true ∧
    (StateReverts.writeStorageRevert [(1, 4), (2, 6)] true [(2, 9)]).plainStorage = [] ∧
    (StateReverts.writeStorageRevert [(1, 4), (2, 6)] true [(2, 9)]).emitted.lookup 1
      = some 4 ∧
    (StateReverts.writeStorageRevert [(1, 4), (2, 6)] true [(2, 9)]).emitted.lookup 2
      = some 9 := by
  have h1 := writeStorageRevert_wiped [] [(2, 9)] (by decide) (by decide)
  have h2 := writeStorageRevert_wiped [(1, 4), (2, 6)] [(2, 9)] (by decide) (by decide)
  obtain ⟨d1, p1, e1⟩ := h1.1 rfl
  obtain ⟨d2, p2, e2, hl⟩ := h2.2 (by decide)
  refine ⟨d1, e1, d2, p2, ?_, ?_⟩
  · rw [hl 1]; rfl
  · rw [hl 2]; rfl

namespace StateChange

/-- `seek_by_key_subkey` on the duplicate-sorted `PlainStorageState` table
restricted to one address: the first entry whose slot key is at least the
sought key. -/
def seek_by_key_subkey (table : List (Nat × Nat)) (key : Nat) : Option (Nat × Nat) :=
  table.find? (fun e => decide (key ≤ e.fst))

/-- The seek-and-delete prelude of the storage loop of
`StateChange::write_to_db` (change.rs): seek the slot with
`seek_by_key_subkey` and `delete_current` only on an exact key match. -/
def deleteExact (table : List (Nat × Nat)) (key : Nat) : List (Nat × Nat) :=
  match seek_by_key_subkey table key with
  | some entry => if entry.fst = key then table.erase entry else table
  | none => table

/-- `upsert` on the duplicate-sorted `PlainStorageState` table restricted
to one address: insert the entry keeping the slot order. -/
def upsert (table : List (Nat × Nat)) (entry : Nat × Nat) : List (Nat × Nat) :=
  match table with
  | [] => [entry]
  | x :: xs => if entry.fst < x.fst then entry :: x :: xs else x :: upsert xs entry

/-- Body of the storage loop of `StateChange::write_to_db` (change.rs) for
one (address, key, value) of the net diff: delete the exact slot entry if
present, then re-insert only a non-zero value. -/
def writeStorageSlot (table : List (Nat × Nat)) (key value : Nat) :
    List (Nat × Nat) :=
  let table2 := deleteExact table key
  if value ≠ 0 then upsert table2 (key, value) else table2

end StateChange

/-- `upsert` inserts its entry and keeps everything else, up to order. -/
theorem upsert_perm (table : List (Nat × Nat)) (entry : Nat × Nat) :
    List.Perm (StateChange.upsert table entry) (entry :: table) := by
  induction table with
  | nil => exact List.Perm.refl _
  | cons x xs ih =>
    rw [StateChange.upsert]
    by_cases hx : entry.fst < x.fst
    · rw [if_pos hx]
    · rw [if_neg hx]
      exact (ih.cons x).trans (List.Perm.swap entry x xs)

/-- On a key-ascending table, the seek-and-delete prelude removes exactly
the entries carrying the sought key. -/
theorem deleteExact_eq_filter (key : Nat) :
    ∀ (table : List (Nat × Nat)), KeysAsc table →
      StateChange.deleteExact table key = table.filter (fun e => e.fst != key) := by
  intro table
  induction table with
  | nil => intro _; rfl
  | cons x xs ih =>
    intro h
    have hxs : ∀ e ∈ xs, x.fst < e.fst := (List.pairwise_cons.mp h).1
    by_cases hx : key ≤ x.fst
    · have hseek : StateChange.seek_by_key_subkey (x :: xs) key = some x :=
        List.find?_cons_of_pos _ (by simpa using hx)
      by_cases hxk : x.fst = key
      · have herase : (x :: xs).erase x = xs := List.erase_cons_head x xs
        have hfil : xs.filter (fun e => e.fst != key) = xs :=
          List.filter_eq_self.mpr fun e he => by
            have := hxs e he
            simp [bne_iff_ne]
            omega
        rw [StateChange.deleteExact, hseek]
        simp only [hxk, if_true]
        rw [herase, List.filter_cons]
        have : (x.fst != key) = false := by simp [bne_iff_ne, hxk]
        rw [this]
        simp [hfil]
      · have hfil : (x :: xs).filter (fun e => e.fst != key) = x :: xs :=
          List.filter_eq_self.mpr fun e he => by
            rcases List.mem_cons.mp he with rfl | he2
            · simp [bne_iff_ne, hxk]
            · have := hxs e he2
              simp [bne_iff_ne]
              omega
        rw [StateChange.deleteExact, hseek]
        simp only [hxk, if_false]
        rw [hfil]
    · have hxlt : x.fst < key := by omega
      have hseek : StateChange.seek_by_key_subkey (x :: xs) key =
          StateChange.seek_by_key_subkey xs key :=
        List.find?_cons_of_neg _ (by simpa using hx)
      have hxkeep : (x.fst != key) = true := by
        simp [bne_iff_ne]
        omega
      have ihx := ih (List.Pairwise.of_cons h)
      rw [StateChange.deleteExact, hseek, List.filter_cons, hxkeep]
      simp only [if_true]
      cases hfind : StateChange.seek_by_key_subkey xs key with
      | none =>
        rw [StateChange.deleteExact, hfind] at ihx
        rw [← ihx]
      | some entry =>
        have hentry : key ≤ entry.fst := by
          have := List.find?_some hfind
          simpa using this
        by_cases hek : entry.fst = key
        · have hne : ¬x = entry := by
            intro hcontra
            rw [hcontra] at hxlt
            omega
          have herase : (x :: xs).erase entry = x :: xs.erase entry := by
            rw [List.erase_cons]
            simp [hne]
          rw [StateChange.deleteExact, hfind] at ihx
          simp only [hek, if_true] at ihx
          simp only [hek, if_true]
          rw [herase, ihx]
        · rw [StateChange.deleteExact, hfind] at ihx
          simp only [hek, if_false] at ihx
          simp only [hek, if_false]
          rw [← ihx]

/-- C7: after the storage write of `StateChange::write_to_db` processes an
(address, slot, new-value) entry of the net diff against a key-ascending
table, the table holds no entry for that slot when the new value is zero —
any pre-existing entry having been deleted — and exactly the single entry
(slot, new-value) when it is non-zero; zero is represented by absence. -/
theorem writeStorageSlot_spec (table : List (Nat × Nat)) (key value : Nat)
    (h : KeysAsc table) :
    (StateChange.writeStorageSlot table key value).filter (fun e => e.fst == key) =
      if value = 0 then [] else [(key, value)] := by
  have hdel := deleteExact_eq_filter key table h
  have hnone : ∀ e ∈ StateChange.deleteExact table key, (e.fst == key) = false := by
    intro e he
    rw [hdel] at he
    have := List.of_mem_filter he
    simpa [bne_iff_ne] using this
  have hfil2 : (StateChange.deleteExact table key).filter (fun e => e.fst == key) = [] :=
    List.filter_eq_nil_iff.mpr fun e he => by rw [hnone e he]; simp
  by_cases hv : value = 0
  · rw [if_pos hv]
    have : StateChange.writeStorageSlot table key value =
        StateChange.deleteExact table key := by
      rw [StateChange.writeStorageSlot]
      simp [hv]
    rw [this, hfil2]
  · rw [if_neg hv]
    have hws : StateChange.writeStorageSlot table key value =
        StateChange.upsert (StateChange.deleteExact table key) (key, value) := by
      rw [StateChange.writeStorageSlot]
      simp [hv]
    rw [hws]
    have hperm :
        List.Perm
          ((StateChange.upsert (StateChange.deleteExact table key)
              (key, value)).filter (fun e => e.fst == key))
          (((key, value) :: StateChange.deleteExact table key).filter
            (fun e => e.fst == key)) :=
      (upsert_perm (StateChange.deleteExact table key) (key, value)).filter _
    rw [List.filter_cons] at hperm
    simp only [beq_self_eq_true, if_true] at hperm
    rw [hfil2] at hperm
    exact List.perm_singleton.mp hperm

/-- Witness for C7 on the table [(2, 8), (5, 3)]: writing value 0 to slot 2
leaves no entry for slot 2, and writing value 9 to slot 2 leaves exactly
the entry (2, 9). -/
theorem writeStorageSlot_spec_witness :
    (StateChange.writeStorageSlot [(2, 8), (5, 3)] 2 0).filter
      (fun e => e.fst == 2) = [] ∧
    (StateChange.writeStorageSlot [(2, 8), (5, 3)] 2 9).filter
      (fun e => e.fst == 2) = [(2, 9)] := by
  have h0 := writeStorageSlot_spec [(2, 8), (5, 3)] 2 0 (by decide)
  have h9 := writeStorageSlot_spec [(2, 8), (5, 3)] 2 9 (by decide)
  rw [if_pos rfl] at h0
  rw [if_neg (by decide)] at h9
  exact ⟨h0, h9⟩

/-- Result of writing one account of the net account diff in
`StateChange::write_to_db`: the plain account table afterwards and whether
a delete was issued. -/
structure AccountWriteResult where
  table : List (Nat × Nat)
  deleteIssued : Bool
deriving DecidableEq, Repr

namespace StateChange

/-- `upsert` on the single-valued `PlainAccountState` table: replace the
address's value or insert it keeping the key order. -/
def upsertAccount : List (Nat × Nat) → Nat → Nat → List (Nat × Nat)
  | [], address, v => [(address, v)]
  | x :: xs, address, v =>
    if x.fst = address then (address, v) :: xs
    else if address < x.fst then (address, v) :: x :: xs
    else x :: upsertAccount xs address v

/-- `seek_exact` on the single-valued `PlainAccountState` table: the entry
with exactly the given address, if present. -/
def seek_exact (table : List (Nat × Nat)) (address : Nat) : Option (Nat × Nat) :=
  table.find? (fun e => e.fst == address)

/-- Body of the account loop of `StateChange::write_to_db` (change.rs):
upsert a present account value; on absence, seek the address exactly and
delete the current entry only when one is found. -/
def writeAccount (table : List (Nat × Nat)) (address : Nat) (account : Option Nat) :
    AccountWriteResult :=
  match account with
  | some a => { table := upsertAccount table address a, deleteIssued := false }
  | none =>
    match seek_exact table address with
    | some entry => { table := table.erase entry, deleteIssued := true }
    | none => { table := table, deleteIssued := false }

end StateChange

/-- After an account upsert the table maps the address to the new value. -/
theorem lookup_upsertAccount (table : List (Nat × Nat)) (address v : Nat) :
    (StateChange.upsertAccount table address v).lookup address = some v := by
  induction table with
  | nil => rw [StateChange.upsertAccount, lookup_cons_pair, if_pos rfl]
  | cons x xs ih =>
    rw [StateChange.upsertAccount]
    by_cases h1 : x.fst = address
    · rw [if_pos h1, lookup_cons_pair, if_pos rfl]
    · rw [if_neg h1]
      by_cases h2 : address < x.fst
      · rw [if_pos h2, lookup_cons_pair, if_pos rfl]
      · rw [if_neg h2, lookup_cons_pair, if_neg (fun hc => h1 hc.symm)]
        exact ih

/-- `seek_exact` finds an entry exactly when `lookup` does. -/
theorem seek_exact_isSome (table : List (Nat × Nat)) (address : Nat) :
    (StateChange.seek_exact table address).isSome = (table.lookup address).isSome := by
  induction table with
  | nil => rfl
  | cons x xs ih =>
    by_cases h1 : x.fst = address
    · have hseek : StateChange.seek_exact (x :: xs) address = some x :=
        List.find?_cons_of_pos _ (by simpa using h1)
      rw [hseek, lookup_cons_pair, if_pos h1.symm]
      rfl
    · have hseek : StateChange.seek_exact (x :: xs) address =
          StateChange.seek_exact xs address :=
        List.find?_cons_of_neg _ (by simpa using h1)
      rw [hseek, lookup_cons_pair, if_neg (fun hc => h1 hc.symm)]
      exact ih

/-- C8: for every (address, account) pair of the net account diff, a
present account value is upserted into the plain account table (the table
afterwards maps the address to it, with no delete issued), while a stated
absence issues a delete exactly when a `seek_exact` finds an existing
entry for the address — for an address with no persisted entry no delete
is attempted and the table is untouched. -/
theorem writeAccount_spec (table : List (Nat × Nat)) (address : Nat) :
    (∀ v : Nat,
      (StateChange.writeAccount table address (some v)).deleteIssued = false ∧
      (StateChange.writeAccount table address (some v)).table.lookup address = some v) ∧
    (StateChange.writeAccount table address none).deleteIssued =
      (table.lookup address).isSome ∧
    (table.lookup address = none →
      StateChange.writeAccount table address none =
        { table := table, deleteIssued := false }) := by
  refine ⟨fun v => ⟨rfl, lookup_upsertAccount table address v⟩, ?_, ?_⟩
  · cases hs : StateChange.seek_exact table address with
    | none =>
      have := seek_exact_isSome table address
      rw [hs] at this
      rw [StateChange.writeAccount, hs]
      exact this
    | some entry =>
      have := seek_exact_isSome table address
      rw [hs] at this
      rw [StateChange.writeAccount, hs]
      exact this
  · intro hnone
    have hiso := seek_exact_isSome table address
    rw [hnone] at hiso
    have hseek : StateChange.seek_exact table address = none :=
      Option.not_isSome_iff_eq_none.mp (by rw [hiso]; simp)
    rw [StateChange.writeAccount, hseek]

/-- Witness for C8 on the table [(7, 1)]: upserting account 2 at address 7
stores it with no delete; absence at address 7 issues a delete; absence at
address 9, which has no entry, issues no delete and leaves the table as it
was. -/
theorem writeAccount_spec_witness :
    (StateChange.writeAccount [(7, 1)] 7 (some 2)).deleteIssued = false ∧
    (StateChange.writeAccount [(7, 1)] 7 (some 2)).table.lookup 7 = some 2 ∧
    (StateChange.writeAccount [(7, 1)] 7 none).deleteIssued = true ∧
    (StateChange.writeAccount [(7, 1)] 9 none).deleteIssued = false ∧
    StateChange.writeAccount [(7, 1)] 9 none =
      { table := [(7, 1)], deleteIssued := false } := by
  have h7 := writeAccount_spec [(7, 1)] 7
  have h9 := writeAccount_spec [(7, 1)] 9
  refine ⟨(h7.1 2).1, (h7.1 2).2, ?_, ?_, h9.2.2 (by decide)⟩
  · rw [h7.2.1]; rfl
  · rw [h9.2.1]; rfl

/-- C1: refutation at the concrete aggregator `exAgg` (first_block = 100,
three blocks): `revert_to 102` resolves index 2; the claim says it removes
`len - (index + 1) = 0` trailing blocks, leaving `index + 1 = 3` receipts
for blocks 100..102 and undoing 0 journal transitions, but the code
truncates the receipts to `len - (index + 1) = 0` entries — removing all
three blocks, block 102 included — and undoes 3 journal transitions. -/
theorem revert_to_wrong_counts :
    (exAgg.revert_to 102).receipts.length = 0 ∧
    (exAgg.revert_to 102).bundle.reverts.length = 0 ∧
    ¬((exAgg.revert_to 102).receipts.length = 3) := by decide

/-- C3: refutation at the concrete aggregator `exAgg` (first_block = 100,
three blocks): `detach_lower_part_at 100` should return a fragment
covering only block 100 (one receipt list), but the fragment produced by
the clone's `revert_to 100` keeps `len - (index + 1) = 2` receipt lists;
the in-place mutation of `self` (drop one leading receipt list and one
leading journal block, advance `first_block` to 101) behaves as
claimed. -/
theorem detach_fragment_wrong_counts :
    ((exAgg.detach_lower_part_at 100).2.map fun f => f.receipts.length) = some 2 ∧
    (exAgg.detach_lower_part_at 100).1.first_block = 101 ∧
    (exAgg.detach_lower_part_at 100).1.receipts = exAgg.receipts.drop 1 ∧
    (exAgg.detach_lower_part_at 100).1.bundle.reverts = exAgg.bundle.reverts.drop 1 ∧
    ¬(((exAgg.detach_lower_part_at 100).2.map fun f => f.receipts.length) = some 1) := by
  decide
